import Mathlib

/-!
Verification development for `disk_scanner.py`: a shallow embedding of the
size resolver (`get_actual_disk_size`), the recursive directory aggregator
(`get_dir_size_and_subdirs`), the hierarchy printer (`print_dir_hierarchy`)
and the scan driver (`scan_system`), together with theorems settling the
frozen claims about them.

Modelling conventions:
* Byte sizes and OS-reported quantities are natural numbers (the OS-level
  quantities involved — `st_blocks`, `st_size`, the two DWORD halves of
  `GetCompressedFileSizeW`, attribute masks — are non-negative counts).
* A fallible OS query is an `Option Nat`: `none` means the call raised an
  OS-level error (or, for the attribute query, returned the INVALID marker);
  `some v` means it returned `v`.  The Python `try/except` handlers become
  `Option` case splits, so a function whose Python body catches every
  exception becomes a total Lean function.
* Directory listings are modelled by the inductive `FS`; an unreadable
  directory (one whose `os.scandir` raises) carries `readable = false`.
-/

namespace DiskScanner

/-- `MIN_FILE_SIZE` from the source: 10 MiB inclusion floor for large files. -/
def MIN_FILE_SIZE : Nat := 10 * 1024 * 1024

/-- `MIN_DIR_SIZE_HIERARCHY` from the source: 500 MiB hierarchy threshold. -/
def MIN_DIR_SIZE_HIERARCHY : Nat := 500 * 1024 * 1024

/-- `MAX_RESULTS` from the source: top-K cutoff. -/
def MAX_RESULTS : Nat := 100

/-- `FILE_ATTRIBUTE_OFFLINE` Windows attribute flag. -/
def FILE_ATTRIBUTE_OFFLINE : Nat := 0x1000

/-- `FILE_ATTRIBUTE_RECALL_ON_DATA_ACCESS` Windows attribute flag. -/
def FILE_ATTRIBUTE_RECALL_ON_DATA_ACCESS : Nat := 0x400000

/-- `INVALID_FILE_SIZE` marker returned by the Windows size API on failure. -/
def INVALID_FILE_SIZE : Nat := 0xFFFFFFFF

/-- The OS-level facts about one file that `is_cloud_file` and
`get_actual_disk_size` consult.  Each `Option` field is `none` when the
corresponding query raises (for `attrs`, also when `GetFileAttributesW`
returns the INVALID marker, which the source treats the same way). -/
structure FileSizeInfo where
  /-- whether the lower-cased path contains the substring `onedrive` -/
  onedrive : Bool
  /-- `GetFileAttributesW` result -/
  attrs : Option Nat
  /-- high DWORD written by `GetCompressedFileSizeW` -/
  compHigh : Nat
  /-- low DWORD returned by `GetCompressedFileSizeW`; `0xFFFFFFFF` = failure -/
  compLow : Nat
  /-- `os.stat(path).st_blocks` -/
  blocks : Option Nat
  /-- `os.path.getsize(path)` -/
  getsize : Option Nat
  deriving DecidableEq

/-- `is_cloud_file` from the source.  `plat = true` models
`sys.platform == 'win32'`.  On non-Windows it is `False`; on Windows it
checks the OneDrive path heuristic and then the offline/recall attribute
bits, returning `False` when the attribute query fails. -/
def is_cloud_file (plat : Bool) (f : FileSizeInfo) : Bool :=
  if plat then
    if f.onedrive then
      match f.attrs with
      | none => false
      | some a =>
        decide (a &&& FILE_ATTRIBUTE_OFFLINE ≠ 0) ||
        decide (a &&& FILE_ATTRIBUTE_RECALL_ON_DATA_ACCESS ≠ 0)
    else false
  else false

/-- `get_actual_disk_size` from the source.  Windows branch: cloud files
report 0; otherwise the `GetCompressedFileSizeW` pair gives
`high * 2^32 + low` unless the low DWORD is the INVALID marker, in which
case the logical length is used (the source's nested handlers make a
failing `getsize` degrade to 0).  Unix branch: `st_blocks * 512`, degrading
to the logical length and then to 0.  Totality of this definition mirrors
the source's catch-all handlers: no input makes it raise. -/
def get_actual_disk_size (plat : Bool) (f : FileSizeInfo) : Nat :=
  if plat then
    if is_cloud_file plat f then 0
    else if f.compLow = INVALID_FILE_SIZE then (f.getsize).getD 0
    else f.compHigh * 2 ^ 32 + f.compLow
  else
    match f.blocks with
    | some b => b * 512
    | none => (f.getsize).getD 0

/-- A directory listing as `os.scandir` classifies it: a chain of entries.
`file` carries the per-file OS facts; `entryError` is an entry whose
`is_file`/`is_dir` classification raises (caught per entry by the source);
`other` is an entry that is neither a regular file nor a directory under
no-follow semantics (e.g. a symlink); `dir` carries the subdirectory's name,
whether its own listing succeeds, its contents, and the rest of the chain. -/
inductive FS where
  | nil : FS
  | file (name : String) (info : FileSizeInfo) (rest : FS) : FS
  | entryError (name : String) (rest : FS) : FS
  | other (name : String) (rest : FS) : FS
  | dir (name : String) (readable : Bool) (contents : FS) (rest : FS) : FS
  deriving DecidableEq

/-- The subdirectory mapping returned by `get_dir_size_and_subdirs`: the
Python value `{path: (size, subdirs)}`, in insertion order. -/
inductive DirStruct where
  | nil : DirStruct
  | node (name : String) (size : Nat) (sub : DirStruct) (rest : DirStruct) : DirStruct
  deriving DecidableEq

/-- The entry loop of `get_dir_size_and_subdirs`: files add their resolved
footprint, entries whose processing raises are skipped, and a subdirectory's
recursive result is recorded (and added to the total) only when its size is
strictly positive.  The recursive call on a subdirectory first checks
whether that directory's own listing succeeds — the source's outer
`except` clause returning `(0, {})`. -/
def scan_entries (plat : Bool) : FS → Nat × DirStruct
  | .nil => (0, DirStruct.nil)
  | .file _ info rest =>
    let a := scan_entries plat rest
    (get_actual_disk_size plat info + a.1, a.2)
  | .entryError _ rest => scan_entries plat rest
  | .other _ rest => scan_entries plat rest
  | .dir n r sub rest =>
    let s := if r then scan_entries plat sub else (0, DirStruct.nil)
    let a := scan_entries plat rest
    if 0 < s.1 then (s.1 + a.1, DirStruct.node n s.1 s.2 a.2) else a

/-- `get_dir_size_and_subdirs` from the source: when the directory's own
listing raises, return `(0, {})`; otherwise run the entry loop. -/
def get_dir_size_and_subdirs (plat : Bool) (readable : Bool) (es : FS) :
    Nat × DirStruct :=
  if readable then scan_entries plat es else (0, DirStruct.nil)

/-- Sum of the resolved footprints of the direct (regular-file) entries of a
listing, used to state the aggregation invariant. -/
def direct_files_sum (plat : Bool) : FS → Nat
  | .nil => 0
  | .file _ info rest => get_actual_disk_size plat info + direct_files_sum plat rest
  | .entryError _ rest => direct_files_sum plat rest
  | .other _ rest => direct_files_sum plat rest
  | .dir _ _ _ rest => direct_files_sum plat rest

/-- Sum of the sizes of the recorded children of a subdirectory mapping. -/
def children_sum : DirStruct → Nat
  | .nil => 0
  | .node _ s _ rest => s + children_sum rest

/-- Every recorded child, at every depth, has strictly positive size. -/
def all_pos : DirStruct → Bool
  | .nil => true
  | .node _ s sub rest => decide (0 < s) && all_pos sub && all_pos rest

/-- Concatenation of listing chains (model-level helper used to speak about
a listing with an extra entry spliced in). -/
def FS.append : FS → FS → FS
  | .nil, t => t
  | .file n i rest, t => .file n i (rest.append t)
  | .entryError n rest, t => .entryError n (rest.append t)
  | .other n rest, t => .other n (rest.append t)
  | .dir n r sub rest, t => .dir n r sub (rest.append t)

/-- Character-level startswith, mirroring Python's `str.startswith` on the
character sequences underlying the names. -/
def starts_with_chars : List Char → List Char → Bool
  | [], _ => true
  | _ :: _, [] => false
  | p :: ps, c :: cs => p == c && starts_with_chars ps cs

/-- `d.startswith(('.', '$', 'System Volume Information'))`: the directory
names excluded by `scan_system`'s walk pruning and top-level listing. -/
def excluded_name (s : String) : Bool :=
  starts_with_chars ".".data s.data || starts_with_chars "$".data s.data ||
    starts_with_chars "System Volume Information".data s.data

/-- The per-directory file loop of `scan_system`'s flat walk: each regular
file whose resolved footprint reaches `MIN_FILE_SIZE` is recorded as
`(path, size, is_cloud)`.  Entries whose stat fails resolve to footprint 0
through `get_actual_disk_size`'s fallbacks, so they are never recorded. -/
def collect_large (plat : Bool) : FS → List (String × Nat × Bool)
  | .nil => []
  | .file n info rest =>
    (if MIN_FILE_SIZE ≤ get_actual_disk_size plat info then
      [(n, get_actual_disk_size plat info, is_cloud_file plat info)]
    else []) ++ collect_large plat rest
  | .entryError _ rest => collect_large plat rest
  | .other _ rest => collect_large plat rest
  | .dir _ _ _ rest => collect_large plat rest

/-- The recursion of `os.walk(topdown=True)` into the subdirectories that
survive the in-place pruning `dirs[:] = [d for d in dirs if not
d.startswith(('.', '$', 'System Volume Information'))]`.  A subdirectory
whose own listing raises yields nothing (`onerror=None`). -/
def walk_subdirs (plat : Bool) : FS → List (String × Nat × Bool)
  | .nil => []
  | .file _ _ rest => walk_subdirs plat rest
  | .entryError _ rest => walk_subdirs plat rest
  | .other _ rest => walk_subdirs plat rest
  | .dir n r sub rest =>
    (if excluded_name n then []
     else if r then collect_large plat sub ++ walk_subdirs plat sub else []) ++
      walk_subdirs plat rest

/-- The flat `os.walk` file scan of `scan_system` over one directory: its
own files first, then the pruned subdirectories depth-first. -/
def walk_large (plat : Bool) (readable : Bool) (es : FS) :
    List (String × Nat × Bool) :=
  if readable then collect_large plat es ++ walk_subdirs plat es else []

/-- The filter inside `scan_system`'s top-level listing: `os.listdir`
entries that are directories and whose names are not excluded. -/
def listdir_dirs : FS → List (String × Bool × FS)
  | .nil => []
  | .file _ _ rest => listdir_dirs rest
  | .entryError _ rest => listdir_dirs rest
  | .other _ rest => listdir_dirs rest
  | .dir n r sub rest =>
    (if excluded_name n then [] else [(n, r, sub)]) ++ listdir_dirs rest

/-- The top-level directory listing of `scan_system`; a raising `listdir`
(unreadable root) is caught and degrades to the empty list. -/
def top_level_dirs (readable : Bool) (es : FS) : List (String × Bool × FS) :=
  if readable then listdir_dirs es else []

/-- The scheduler of `scan_system`: one `get_dir_size_and_subdirs` future
per top-level directory, then the collection loop over `zip(top_dirs,
futures)` filling `dir_sizes` and `dir_structures`.  The aggregator is
total, so every future completes normally and every input directory gets
its entry. -/
def scan_top_dirs (plat : Bool) (tds : List (String × Bool × FS)) :
    List (String × Nat × DirStruct) :=
  let futures := tds.map fun td => get_dir_size_and_subdirs plat td.2.1 td.2.2
  (tds.zip futures).map fun pf => (pf.1.1, pf.2)

/-- Descending comparison by a numeric key: the order underlying both
`heapq.nlargest(..., key=...)` calls and the `sorted(..., reverse=True)`
in `print_dir_hierarchy`. -/
def ge_by {α : Type} (key : α → Nat) (x y : α) : Prop := key y ≤ key x

instance {α : Type} (key : α → Nat) : DecidableRel (ge_by key) :=
  fun x y => Nat.decLe (key y) (key x)

instance {α : Type} (key : α → Nat) : IsTotal α (ge_by key) :=
  ⟨fun x y => (Nat.le_total (key x) (key y)).symm.imp id id⟩

instance {α : Type} (key : α → Nat) : IsTrans α (ge_by key) :=
  ⟨fun _ _ _ h1 h2 => Nat.le_trans h2 h1⟩

/-- `heapq.nlargest(n, l, key)`: the `n` largest items by `key`, in
descending order, ties kept in first-seen order (the documented equivalent
`sorted(l, key=key, reverse=True)[:n]`, realised here by a stable
insertion sort). -/
def nlargest {α : Type} (key : α → Nat) (n : Nat) (l : List α) : List α :=
  (List.insertionSort (ge_by key) l).take n

/-- `scan_system` from the source.  `root = none` models a start path that
does not exist (`os.path.exists` fails): the scan returns empty ranked
lists and an empty tree mapping at once.  Otherwise the flat walk feeds the
large-file list, the top-level directories are aggregated, and both ranked
lists are cut to `MAX_RESULTS`. -/
def scan_system (plat : Bool) (root : Option (Bool × FS)) :
    List (String × Nat × Bool) × List (String × Nat) × List (String × DirStruct) :=
  match root with
  | none => ([], [], [])
  | some rt =>
    let large_files := walk_large plat rt.1 rt.2
    let largest_files := nlargest (fun x => x.2.1) MAX_RESULTS large_files
    let results := scan_top_dirs plat (top_level_dirs rt.1 rt.2)
    let dir_sizes := results.map fun x => (x.1, x.2.1)
    let largest_dirs := nlargest (fun x => x.2) MAX_RESULTS dir_sizes
    (largest_files, largest_dirs, results.map fun x => (x.1, x.2.2))

/-- The children of a subdirectory mapping as the list `structure.items()`,
in insertion order. -/
def itemsOf : DirStruct → List (String × Nat × DirStruct)
  | .nil => []
  | .node n s sub rest => (n, s, sub) :: itemsOf rest

/-- `sorted(structure.items(), key=lambda x: x[1][0], reverse=True)` from
`print_dir_hierarchy`: the children sorted descending by size, ties in
insertion order. -/
def sorted_children (st : DirStruct) : List (String × Nat × DirStruct) :=
  List.insertionSort (ge_by fun c => c.2.1) (itemsOf st)

/-- Every child reachable through `itemsOf` is structurally smaller. -/
theorem sizeOf_lt_of_mem_itemsOf {c : String × Nat × DirStruct} :
    ∀ {st : DirStruct}, c ∈ itemsOf st → sizeOf c.2.2 < sizeOf st := by
  intro st
  induction st with
  | nil => intro h; simp [itemsOf] at h
  | node n s sub rest ihsub ihrest =>
    intro h
    rcases List.mem_cons.1 h with h | h
    · subst h; simp; omega
    · have := ihrest h; simp; omega

/-- Every sorted child is structurally smaller. -/
theorem sizeOf_lt_of_mem_sorted_children {c : String × Nat × DirStruct}
    {st : DirStruct} (h : c ∈ sorted_children st) : sizeOf c.2.2 < sizeOf st := by
  have hp : List.Perm (sorted_children st) (itemsOf st) := by
    unfold sorted_children
    exact List.perm_insertionSort _ (itemsOf st)
  exact sizeOf_lt_of_mem_itemsOf (hp.mem_iff.1 h)

/-- The output side of `print_dir_hierarchy`: the emitted lines, each as
`(depth, path, size)`.  The node's own line comes first; then the sorted
children, and only those whose size reaches `min_size` are recursed into. -/
def render_lines (path : String) (size : Nat) (st : DirStruct)
    (depth min_size : Nat) : List (Nat × String × Nat) :=
  (depth, path, size) ::
    (sorted_children st).attach.flatMap fun c =>
      if min_size ≤ c.1.2.1 then
        render_lines c.1.1 c.1.2.1 c.1.2.2 (depth + 1) min_size
      else []
termination_by sizeOf st
decreasing_by
  exact sizeOf_lt_of_mem_sorted_children c.2

/-- The state of the `structure` dictionary after a `print_dir_hierarchy`
call: the call only reads the mapping (`structure.items()` makes a fresh
sorted list), recursing into exactly the children whose size reaches
`min_size`, so the post-state is the same mapping with each visited child
replaced by its own post-state. -/
def after_render (min_size : Nat) : DirStruct → DirStruct
  | .nil => .nil
  | .node n s sub rest =>
    .node n s (if min_size ≤ s then after_render min_size sub else sub)
      (after_render min_size rest)

/-- `print_dir_hierarchy` from the source, as a state-passing translation:
the emitted lines together with the `structure` mapping as the call leaves
it. -/
def print_dir_hierarchy (path : String) (size : Nat) (st : DirStruct)
    (depth min_size : Nat) : List (Nat × String × Nat) × DirStruct :=
  (render_lines path size st depth min_size, after_render min_size st)

/-- The entry loop preserves the aggregation invariant: the running total
is the direct-file sum plus the recorded children's sizes, and every
recorded child (at every depth) has strictly positive size. -/
theorem scan_entries_inv (plat : Bool) (es : FS) :
    (scan_entries plat es).1 =
      direct_files_sum plat es + children_sum (scan_entries plat es).2 ∧
    all_pos (scan_entries plat es).2 = true := by
  induction es with
  | nil => simp [scan_entries, direct_files_sum, children_sum, all_pos]
  | file n info rest ih =>
    simp only [scan_entries, direct_files_sum]
    refine ⟨?_, ih.2⟩
    have h1 := ih.1
    omega
  | entryError n rest ih => simpa [scan_entries, direct_files_sum] using ih
  | other n rest ih => simpa [scan_entries, direct_files_sum] using ih
  | dir n r sub rest ihsub ihrest =>
    cases r with
    | false => simpa [scan_entries, direct_files_sum] using ihrest
    | true =>
      simp only [scan_entries, if_true]
      by_cases h : 0 < (scan_entries plat sub).1
      · simp only [h, if_true, direct_files_sum, children_sum, all_pos]
        refine ⟨by omega, ?_⟩
        simp [h, ihsub.2, ihrest.2]
      · simpa [h, direct_files_sum] using ihrest

/-- The aggregation invariant, stated on `get_dir_size_and_subdirs`. -/
theorem dir_size_invariant (plat readable : Bool) (es : FS) :
    (get_dir_size_and_subdirs plat readable es).1 =
      (if readable then direct_files_sum plat es else 0) +
        children_sum (get_dir_size_and_subdirs plat readable es).2 ∧
    all_pos (get_dir_size_and_subdirs plat readable es).2 = true := by
  cases readable with
  | false => simp [get_dir_size_and_subdirs, children_sum, all_pos]
  | true => simpa [get_dir_size_and_subdirs] using scan_entries_inv plat es

/-- C1: for every directory (any platform, any listing, readable or not),
the pair returned by `get_dir_size_and_subdirs` satisfies the invariant:
the size is the sum of the resolved footprints of the direct files the
enumeration observes (none when the listing itself fails) plus the sum of
the recorded children's sizes, and every recorded child — at every depth —
has strictly positive size, zero-sized subtrees being omitted. -/
theorem c1_aggregator_invariant (plat readable : Bool) (es : FS) :
    (get_dir_size_and_subdirs plat readable es).1 =
      (if readable then direct_files_sum plat es else 0) +
        children_sum (get_dir_size_and_subdirs plat readable es).2 ∧
    all_pos (get_dir_size_and_subdirs plat readable es).2 = true :=
  dir_size_invariant plat readable es

/-- C6: an enumeration failure on the directory itself yields `(0, empty)`
for the whole subtree, and an access failure on one entry of a readable
directory contributes zero while the aggregation of the remaining entries
(before and after it) is exactly the aggregation without that entry. -/
theorem c6_access_failures_contained (plat : Bool) (es pre post : FS) (n : String) :
    get_dir_size_and_subdirs plat false es = (0, DirStruct.nil) ∧
    scan_entries plat (FS.append pre (FS.entryError n post)) =
      scan_entries plat (FS.append pre post) := by
  refine ⟨by simp [get_dir_size_and_subdirs], ?_⟩
  induction pre with
  | nil => simp [FS.append, scan_entries]
  | file m info rest ih => simp [FS.append, scan_entries, ih]
  | entryError m rest ih => simp [FS.append, scan_entries, ih]
  | other m rest ih => simp [FS.append, scan_entries, ih]
  | dir m r sub rest ihsub ihrest => simp [FS.append, scan_entries, ihrest]

/-- C8: when the scan root does not exist, `scan_system` returns empty
ranked file and directory lists and an empty tree mapping, performing no
walk and no aggregation. -/
theorem c8_missing_root_no_partial_results (plat : Bool) :
    scan_system plat none = ([], [], []) := rfl

/-- Rendering leaves the structure mapping unchanged. -/
theorem after_render_id (m : Nat) (st : DirStruct) : after_render m st = st := by
  induction st with
  | nil => rfl
  | node n s sub rest ihsub ihrest =>
    by_cases h : m ≤ s <;> simp [after_render, h, ihsub, ihrest]

/-- C9: `print_dir_hierarchy` does not mutate the tree it is given — the
post-state of the structure equals the input for every threshold, so
repeated rendering with different thresholds sees the identical tree. -/
theorem c9_render_does_not_mutate (p : String) (s : Nat) (st : DirStruct)
    (d m : Nat) : (print_dir_hierarchy p s st d m).2 = st := by
  simp [print_dir_hierarchy, after_render_id]

/-- A recorded child's size is bounded by the sum of all children. -/
theorem le_children_sum {c : String × Nat × DirStruct} :
    ∀ {st : DirStruct}, c ∈ itemsOf st → c.2.1 ≤ children_sum st := by
  intro st
  induction st with
  | nil => intro h; simp [itemsOf] at h
  | node n s sub rest ihsub ihrest =>
    intro h
    rcases List.mem_cons.1 h with h | h
    · subst h; simp [children_sum]
    · have := ihrest h; simp [children_sum]; omega

/-- C10: the size resolver returns a natural number (non-negative by
construction, matching the non-negative OS quantities it combines), hence
every directory size is non-negative and at least the size of each of its
recorded children. -/
theorem c10_child_size_bounded (plat readable : Bool) (es : FS) :
    (∀ f : FileSizeInfo, 0 ≤ get_actual_disk_size plat f) ∧
    (∀ c ∈ itemsOf (get_dir_size_and_subdirs plat readable es).2,
      c.2.1 ≤ (get_dir_size_and_subdirs plat readable es).1) := by
  refine ⟨fun f => Nat.zero_le _, fun c hc => ?_⟩
  have hinv := (dir_size_invariant plat readable es).1
  have hle := le_children_sum hc
  omega

/-- Witness for C10 at a concrete one-file subtree: the recorded child of
size 4096 is bounded by the directory's total. -/
theorem c10_child_size_bounded_witness :
    (0 ≤ get_actual_disk_size false
      (FileSizeInfo.mk false none 0 0 (some 8) (some 0))) ∧
    (("a", (4096 : Nat), DirStruct.nil) ∈ itemsOf
      (get_dir_size_and_subdirs false true
        (FS.dir "a" true
          (FS.file "f" (FileSizeInfo.mk false none 0 0 (some 8) (some 0)) FS.nil)
          FS.nil)).2) ∧
    (4096 : Nat) ≤ (get_dir_size_and_subdirs false true
        (FS.dir "a" true
          (FS.file "f" (FileSizeInfo.mk false none 0 0 (some 8) (some 0)) FS.nil)
          FS.nil)).1 := by
  have hmem : ("a", (4096 : Nat), DirStruct.nil) ∈ itemsOf
      (get_dir_size_and_subdirs false true
        (FS.dir "a" true
          (FS.file "f" (FileSizeInfo.mk false none 0 0 (some 8) (some 0)) FS.nil)
          FS.nil)).2 := by decide
  refine ⟨(c10_child_size_bounded false true
    (FS.dir "a" true
      (FS.file "f" (FileSizeInfo.mk false none 0 0 (some 8) (some 0)) FS.nil)
      FS.nil)).1 _, hmem, ?_⟩
  exact (c10_child_size_bounded false true
    (FS.dir "a" true
      (FS.file "f" (FileSizeInfo.mk false none 0 0 (some 8) (some 0)) FS.nil)
      FS.nil)).2 _ hmem

/-- C3: `get_actual_disk_size` is total (no input raises), and degrades as
specified: on Windows, a non-cloud file whose allocated-size query fails
falls back to the logical length; on Unix, a failing block-count query
falls back to the logical length; in either case, when the logical-length
query also fails the result is 0. -/
theorem c3_size_resolver_degrades (plat : Bool) (f : FileSizeInfo) :
    (plat = true → is_cloud_file plat f = false →
      f.compLow = INVALID_FILE_SIZE →
      get_actual_disk_size plat f = (f.getsize).getD 0) ∧
    (plat = false → f.blocks = none →
      get_actual_disk_size plat f = (f.getsize).getD 0) ∧
    (plat = true → is_cloud_file plat f = false →
      f.compLow = INVALID_FILE_SIZE → f.getsize = none →
      get_actual_disk_size plat f = 0) ∧
    (plat = false → f.blocks = none → f.getsize = none →
      get_actual_disk_size plat f = 0) := by
  refine ⟨?_, ?_, ?_, ?_⟩
  · intro hp hc hl
    subst hp
    simp [get_actual_disk_size, hc, hl]
  · intro hp hb
    subst hp
    simp [get_actual_disk_size, hb]
  · intro hp hc hl hg
    subst hp
    simp [get_actual_disk_size, hc, hl, hg]
  · intro hp hb hg
    subst hp
    simp [get_actual_disk_size, hb, hg]

/-- Witness for C3: concrete inputs exercising each degradation leg. -/
theorem c3_size_resolver_degrades_witness :
    get_actual_disk_size true
      (FileSizeInfo.mk false none 0 INVALID_FILE_SIZE none (some 7)) = 7 ∧
    get_actual_disk_size false
      (FileSizeInfo.mk false none 0 0 none (some 9)) = 9 ∧
    get_actual_disk_size true
      (FileSizeInfo.mk false none 0 INVALID_FILE_SIZE none none) = 0 ∧
    get_actual_disk_size false
      (FileSizeInfo.mk false none 0 0 none none) = 0 := by
  refine ⟨?_, ?_, ?_, ?_⟩
  · exact (c3_size_resolver_degrades true _).1 rfl (by decide) rfl
  · exact (c3_size_resolver_degrades false _).2.1 rfl rfl
  · exact (c3_size_resolver_degrades true _).2.2.1 rfl (by decide) rfl rfl
  · exact (c3_size_resolver_degrades false _).2.2.2 rfl rfl rfl

/-- Collecting the futures over `zip(top_dirs, futures)` yields exactly the
per-directory aggregation results, in input order. -/
theorem scan_top_dirs_eq_map (plat : Bool) (tds : List (String × Bool × FS)) :
    scan_top_dirs plat tds =
      tds.map fun td => (td.1, get_dir_size_and_subdirs plat td.2.1 td.2.2) := by
  induction tds with
  | nil => rfl
  | cons td rest ih =>
    simp only [scan_top_dirs, List.map_cons, List.zip_cons_cons] at ih ⊢
    rw [ih]

/-- C5: the scheduler's result mapping has exactly one entry per input
top-level directory, in input order; a directory whose aggregation hits an
access failure on open is still present, mapped to size 0 with an empty
tree, and every other directory's entry is its own aggregation result,
unaffected by failing siblings. -/
theorem c5_scheduler_entry_per_dir (plat : Bool) (tds : List (String × Bool × FS)) :
    ((scan_top_dirs plat tds).map fun x => x.1) = (tds.map fun td => td.1) ∧
    (∀ td ∈ tds,
      (td.1, get_dir_size_and_subdirs plat td.2.1 td.2.2) ∈ scan_top_dirs plat tds) ∧
    (∀ n sub, (n, false, sub) ∈ tds → (n, 0, DirStruct.nil) ∈ scan_top_dirs plat tds) := by
  refine ⟨?_, ?_, ?_⟩
  · rw [scan_top_dirs_eq_map, List.map_map]
    rfl
  · intro td htd
    rw [scan_top_dirs_eq_map]
    exact List.mem_map_of_mem _ htd
  · intro n sub hmem
    rw [scan_top_dirs_eq_map]
    have h2 := List.mem_map_of_mem
      (fun td : String × Bool × FS => (td.1, get_dir_size_and_subdirs plat td.2.1 td.2.2)) hmem
    simpa [get_dir_size_and_subdirs] using h2

/-- Witness for C5: a readable and an unreadable top directory; both keys
appear, the unreadable one mapped to `(0, empty)`, the readable one to its
own aggregation. -/
theorem c5_scheduler_entry_per_dir_witness :
    ((scan_top_dirs false
        [("ok", true, FS.file "f" (FileSizeInfo.mk false none 0 0 (some 8) (some 0)) FS.nil),
         ("bad", false, FS.nil)]).map fun x => x.1) = ["ok", "bad"] ∧
    ("bad", 0, DirStruct.nil) ∈ scan_top_dirs false
        [("ok", true, FS.file "f" (FileSizeInfo.mk false none 0 0 (some 8) (some 0)) FS.nil),
         ("bad", false, FS.nil)] ∧
    ("ok", 4096, DirStruct.nil) ∈ scan_top_dirs false
        [("ok", true, FS.file "f" (FileSizeInfo.mk false none 0 0 (some 8) (some 0)) FS.nil),
         ("bad", false, FS.nil)] := by
  refine ⟨(c5_scheduler_entry_per_dir false _).1.trans (by decide), ?_, ?_⟩
  · exact (c5_scheduler_entry_per_dir false _).2.2 "bad" FS.nil (by decide)
  · have h := (c5_scheduler_entry_per_dir false
        [("ok", true, FS.file "f" (FileSizeInfo.mk false none 0 0 (some 8) (some 0)) FS.nil),
         ("bad", false, FS.nil)]).2.1
        ("ok", true, FS.file "f" (FileSizeInfo.mk false none 0 0 (some 8) (some 0)) FS.nil)
        (by decide)
    simpa [get_dir_size_and_subdirs, scan_entries, get_actual_disk_size] using h

/-- Inside a rendering whose root already clears the threshold, every
emitted line's size clears the threshold. -/
theorem render_lines_ge (p : String) (s : Nat) (st : DirStruct) (d m : Nat)
    (hs : m ≤ s) : ∀ l ∈ render_lines p s st d m, m ≤ l.2.2 := by
  intro l hl
  rw [render_lines] at hl
  rcases List.mem_cons.1 hl with rfl | hl
  · simpa using hs
  · rw [List.mem_flatMap] at hl
    obtain ⟨c, _, hl⟩ := hl
    by_cases hm : m ≤ c.1.2.1
    · rw [if_pos hm] at hl
      exact render_lines_ge c.1.1 c.1.2.1 c.1.2.2 (d + 1) m hm l hl
    · rw [if_neg hm] at hl
      simp at hl
termination_by sizeOf st
decreasing_by exact sizeOf_lt_of_mem_sorted_children c.2

/-- C7: apart from the root's own line, the hierarchy rendering never emits
a line whose size is below the threshold, and the children of each node are
traversed in descending order of size. -/
theorem c7_hierarchy_threshold_and_order (p : String) (s : Nat)
    (st : DirStruct) (d m : Nat) :
    (((print_dir_hierarchy p s st d m).1).tail).all
        (fun l => decide (m ≤ l.2.2)) = true ∧
    List.Sorted (ge_by fun c => c.2.1) (sorted_children st) := by
  constructor
  · rw [List.all_eq_true]
    intro l hl
    rw [decide_eq_true_eq]
    have hl2 : l ∈ ((print_dir_hierarchy p s st d m).1).tail := hl
    rw [print_dir_hierarchy] at hl2
    rw [render_lines] at hl2
    simp only [List.tail_cons] at hl2
    rw [List.mem_flatMap] at hl2
    obtain ⟨c, _, hl2⟩ := hl2
    by_cases hm : m ≤ c.1.2.1
    · rw [if_pos hm] at hl2
      exact render_lines_ge c.1.1 c.1.2.1 c.1.2.2 (d + 1) m hm l hl2
    · rw [if_neg hm] at hl2
      simp at hl2
  · exact List.sorted_insertionSort _ _

/-- C2 counterexample: `.hidden` is an excluded name, yet
`get_dir_size_and_subdirs` walks it, records it as a child and counts its
4096 bytes toward the parent's size — the recursive aggregator applies no
name filtering. -/
theorem c2_aggregator_filters_counterexample :
    excluded_name ".hidden" = true ∧
    (get_dir_size_and_subdirs false true
      (FS.dir ".hidden" true
        (FS.file "f" (FileSizeInfo.mk false none 0 0 (some 8) (some 0)) FS.nil)
        FS.nil)).1 = 4096 ∧
    (get_dir_size_and_subdirs false true
      (FS.dir ".hidden" true
        (FS.file "f" (FileSizeInfo.mk false none 0 0 (some 8) (some 0)) FS.nil)
        FS.nil)).2 =
      DirStruct.node ".hidden" 4096 DirStruct.nil DirStruct.nil := by
  decide

/-- C2 amended: the dot/dollar/volume-metadata name exclusion lives in
`scan_system`, not in the aggregator: the flat walk prunes an excluded
directory before descending, the top-level listing omits it, and every
selected top-level directory has a non-excluded name; the aggregator
itself recurses regardless of names (see the counterexample). -/
theorem c2_filter_in_scan_system (plat : Bool) (n : String) (r rt : Bool)
    (sub rest es : FS) (hex : excluded_name n = true) :
    walk_subdirs plat (FS.dir n r sub rest) = walk_subdirs plat rest ∧
    top_level_dirs rt (FS.dir n r sub rest) = top_level_dirs rt rest ∧
    (∀ td ∈ top_level_dirs rt es, excluded_name td.1 = false) := by
  refine ⟨by simp [walk_subdirs, hex], ?_, ?_⟩
  · cases rt with
    | false => simp [top_level_dirs]
    | true => simp [top_level_dirs, listdir_dirs, hex]
  · cases rt with
    | false => intro td h; simp [top_level_dirs] at h
    | true =>
      simp only [top_level_dirs, if_true]
      induction es with
      | nil => intro td h; simp [listdir_dirs] at h
      | file m info fsrest ih => intro td h; exact ih td h
      | entryError m fsrest ih => intro td h; exact ih td h
      | other m fsrest ih => intro td h; exact ih td h
      | dir m rr ssub fsrest ihsub ihrest =>
        intro td h
        simp only [listdir_dirs, List.mem_append] at h
        rcases h with h | h
        · by_cases hm : excluded_name m = true
          · rw [if_pos hm] at h
            simp at h
          · rw [if_neg hm] at h
            rcases List.mem_singleton.1 h with rfl
            simpa using hm
        · exact ihrest td h

/-- Witness for C2's amended statement at `.x`, an excluded name. -/
theorem c2_filter_in_scan_system_witness :
    excluded_name ".x" = true ∧
    (walk_subdirs false (FS.dir ".x" true FS.nil FS.nil) = walk_subdirs false FS.nil ∧
     top_level_dirs true (FS.dir ".x" true FS.nil FS.nil) = top_level_dirs true FS.nil ∧
     (∀ td ∈ top_level_dirs true (FS.dir "d" true FS.nil FS.nil),
        excluded_name td.1 = false)) :=
  ⟨by decide,
   c2_filter_in_scan_system false ".x" true true FS.nil FS.nil
     (FS.dir "d" true FS.nil FS.nil) (by decide)⟩

/-- Inserting an element that a filter rejects leaves the filtered list
unchanged. -/
theorem orderedInsert_filter_of_not {α : Type} (key : α → Nat) (p : α → Bool)
    (a : α) (hpa : p a = false) :
    ∀ l : List α, (List.orderedInsert (ge_by key) a l).filter p = l.filter p
  | [] => by simp [hpa]
  | b :: t => by
    rw [List.orderedInsert]
    split_ifs with h
    · simp [List.filter_cons, hpa]
    · rw [List.filter_cons, List.filter_cons,
        orderedInsert_filter_of_not key p a hpa t]

/-- Inserting `a` into a descending-sorted list places it in front of every
element with the same key: the filtered-to-that-key sublist gains `a` at
its head. -/
theorem orderedInsert_filter_key {α : Type} (key : α → Nat) (a : α) :
    ∀ l : List α, List.Sorted (ge_by key) l →
      (List.orderedInsert (ge_by key) a l).filter (fun x => key x == key a) =
        a :: l.filter (fun x => key x == key a)
  | [], _ => by simp
  | b :: t, hs => by
    rw [List.orderedInsert]
    rw [List.sorted_cons] at hs
    split_ifs with h
    · simp [List.filter_cons]
    · have hne : (key b == key a) = false := by
        simp only [ge_by] at h
        simp only [beq_eq_false_iff_ne, ne_eq]
        omega
      rw [List.filter_cons, List.filter_cons, hne,
        orderedInsert_filter_key key a t hs.2]
      simp

/-- The stable descending insertion sort preserves, for each key value, the
first-seen order of the elements having that key. -/
theorem insertionSort_filter_key {α : Type} (key : α → Nat) (s : Nat) :
    ∀ l : List α,
      (List.insertionSort (ge_by key) l).filter (fun x => key x == s) =
        l.filter (fun x => key x == s)
  | [] => rfl
  | a :: t => by
    rw [List.insertionSort]
    by_cases h : key a = s
    · subst h
      rw [orderedInsert_filter_key key a (List.insertionSort (ge_by key) t)
          (List.sorted_insertionSort _ t),
        insertionSort_filter_key key (key a) t]
      simp [List.filter_cons]
    · have hpa : ((fun x => key x == s) a) = false := by simp [h]
      rw [orderedInsert_filter_of_not key _ a hpa
          (List.insertionSort (ge_by key) t),
        insertionSort_filter_key key s t, List.filter_cons]
      simp [h]

/-- Two descending-sorted lists that are permutations of each other and
have pairwise-distinct keys are equal. -/
theorem sorted_keys_unique {α : Type} (key : α → Nat) :
    ∀ (l1 l2 : List α), List.Sorted (ge_by key) l1 →
      List.Sorted (ge_by key) l2 → l1.Perm l2 → (l1.map key).Nodup → l1 = l2
  | [], l2, _, _, hp, _ => (List.Perm.eq_nil hp.symm).symm
  | a :: t1, l2, hs1, hs2, hp, hnd => by
    cases l2 with
    | nil => exact absurd (List.Perm.eq_nil hp) (by simp)
    | cons b t2 =>
      rw [List.sorted_cons] at hs1 hs2
      have hb1 : b ∈ a :: t1 := hp.mem_iff.2 (List.mem_cons_self b t2)
      have hab : key a = key b := by
        have ha2 : a ∈ b :: t2 := hp.mem_iff.1 (List.mem_cons_self a t1)
        have h1 : key a ≤ key b := by
          rcases List.mem_cons.1 ha2 with h | h
          · rw [h]
          · exact hs2.1 a h
        have h2 : key b ≤ key a := by
          rcases List.mem_cons.1 hb1 with h | h
          · rw [h]
          · exact hs1.1 b h
        omega
      have hba : b = a := by
        rcases List.mem_cons.1 hb1 with h | h
        · exact h
        · exfalso
          rw [List.map_cons, List.nodup_cons] at hnd
          exact hnd.1 (hab ▸ List.mem_map_of_mem key h)
      subst hba
      have ht : t1 = t2 :=
        sorted_keys_unique key t1 t2 hs1.2 hs2.2 hp.cons_inv
          (by rw [List.map_cons, List.nodup_cons] at hnd; exact hnd.2)
      rw [ht]

/-- C4 counterexample: with capacity 1 and two tied entries, feeding the
two orders of the same multiset selects different paths — the final top-K
set is not permutation-invariant when equal sizes straddle the cutoff. -/
theorem c4_permutation_invariance_counterexample :
    List.Perm [("a", 5), ("b", 5)] [("b", (5 : Nat)), ("a", 5)] ∧
    ("a", (5 : Nat)) ∈ nlargest (fun x => x.2) 1 [("a", 5), ("b", 5)] ∧
    ("a", (5 : Nat)) ∉ nlargest (fun x => x.2) 1 [("b", 5), ("a", 5)] := by
  refine ⟨List.Perm.swap _ _ _, by decide, by decide⟩

/-- C4 amended: when the sizes in the stream are pairwise distinct, any two
permutations of the same multiset yield the same top-K selection (so the
selected set is permutation-invariant); and — unconditionally, for every
input including ones with tied sizes — among items of equal size the
selection preserves first-seen input order: the selected items with a given
size form a prefix of that size's items in input order. -/
theorem c4_nlargest_deterministic (n : Nat) (l1 l2 : List (String × Nat))
    (s : Nat) :
    (l1.Perm l2 → (l1.map fun x => x.2).Nodup →
      nlargest (fun x => x.2) n l1 = nlargest (fun x => x.2) n l2) ∧
    (∃ t, l1.filter (fun x => x.2 == s) =
      (nlargest (fun x => x.2) n l1).filter (fun x => x.2 == s) ++ t) := by
  constructor
  · intro hperm hnd
    have hsort : List.insertionSort (ge_by fun x : String × Nat => x.2) l1 =
        List.insertionSort (ge_by fun x : String × Nat => x.2) l2 := by
      apply sorted_keys_unique (fun x : String × Nat => x.2)
      · exact List.sorted_insertionSort _ l1
      · exact List.sorted_insertionSort _ l2
      · exact (List.perm_insertionSort _ l1).trans
          (hperm.trans (List.perm_insertionSort _ l2).symm)
      · exact ((List.perm_insertionSort _ l1).map _).nodup_iff.2 hnd
    unfold nlargest
    rw [hsort]
  · refine ⟨((List.insertionSort (ge_by fun x : String × Nat => x.2) l1).drop n).filter
      (fun x => x.2 == s), ?_⟩
    unfold nlargest
    rw [← List.filter_append, List.take_append_drop]
    exact (insertionSort_filter_key (fun x : String × Nat => x.2) s l1).symm

/-- Witness for C4's amended statement: the permutation-invariance leg at
two orders of a distinct-size multiset (discharging both hypotheses), and
the tie-preservation leg at an input with two size-5 ties of which the
capacity-2 selection keeps exactly the first-seen one. -/
theorem c4_nlargest_deterministic_witness :
    (nlargest (fun x => x.2) 1 [("a", 3), ("b", (9 : Nat))] =
      nlargest (fun x => x.2) 1 [("b", 9), ("a", 3)]) ∧
    (∃ t, List.filter (fun x => x.2 == 5)
        [("a", (5 : Nat)), ("c", 7), ("b", 5)] =
      (nlargest (fun x => x.2) 2 [("a", 5), ("c", 7), ("b", 5)]).filter
        (fun x => x.2 == 5) ++ t) :=
  ⟨(c4_nlargest_deterministic 1 [("a", 3), ("b", 9)] [("b", 9), ("a", 3)] 3).1
      (List.Perm.swap _ _ _) (by decide),
   (c4_nlargest_deterministic 2 [("a", 5), ("c", 7), ("b", 5)]
      [("a", 5), ("c", 7), ("b", 5)] 5).2⟩

end DiskScanner
